import Mathlib

/-!
Verification of the babylon_data_loader CSV-ingestion pipeline.

This file gives a shallow embedding, in Lean, of the core of the Go
repository `babylon_data_loader`: the CSV parser (`csv` package,
`DefaultParser.Parse`), the record normalizer (`datalake` package,
`fromRecords` / `mapRawRecordsToTransactions`), the filename source
extractor (`datasource.ChaseExtractor.ExtractInfo`), the Mongo
repository (`storage.MongoRepository.BulkUpsertTransactions`), the
per-run statistics accumulator (`datalake.Stats`), and the orchestrator
(`datalake.client.IngestCSVFiles` / `CSVFileProcessor.ingestCSVFile` /
`CSVFileProcessor.processFile`).

Modelling conventions:
- Go `float64` amounts are embedded as exact rationals (`Rat`); the
  claims under verification do not depend on floating-point rounding.
- Go maps are embedded either as association lists (the `Stats.Failures`
  map, whose insertion order the code makes deterministic) or as
  functions to `Option` (a `RawRecord`, where map equality is
  extensional).
- Filesystem, Mongo, and clock effects are embedded as explicit inputs:
  the directory listing is an `Except` value, injected dependencies
  (extractor, parser, repository, file move) are function-valued fields
  of a `Deps` structure mirroring the Go interfaces the orchestrator is
  programmed against, and `time.Now()` is a `Nat` parameter.
-/

namespace Babylon

/-- Embeds Go `strings.HasSuffix` (exact, case-sensitive suffix test). -/
def goHasSuffix (s suffix : String) : Bool :=
  suffix.data.isSuffixOf s.data

/-- Embeds Go `strings.ToLower`, restricted to ASCII letters (the only
characters the repository feeds it). -/
def goToLower (s : String) : String :=
  ⟨s.data.map Char.toLower⟩

/-- Numeric value of a run of ASCII digit characters. -/
def digitsToNat (l : List Char) : Nat :=
  l.foldl (fun a c => a * 10 + (c.toNat - 48)) 0

/-- Embeds Go `strconv.ParseFloat(s, 64)` on plain decimal notation
(optional sign, integer part, optional fractional part), returning the
exact rational value.  Inputs outside this grammar (including the empty
string and non-numeric text) fail, as in Go.  Go's special forms
`Inf`/`NaN`, exponents, hex floats and digit-group underscores are not
modelled; no claim exercises them. -/
def parseFloat (s : String) : Option Rat :=
  let l := s.data
  let sgn : Rat := match l with
    | '-' :: _ => -1
    | _ => 1
  let l1 : List Char := match l with
    | '-' :: r => r
    | '+' :: r => r
    | _ => l
  let ip := l1.takeWhile Char.isDigit
  let l2 := l1.dropWhile Char.isDigit
  let mant : Option Rat := match l2 with
    | [] => if ip.isEmpty then none else some (digitsToNat ip : Rat)
    | '.' :: r =>
      let fp := r.takeWhile Char.isDigit
      let l3 := r.dropWhile Char.isDigit
      if l3.isEmpty then
        if ip.isEmpty && fp.isEmpty then none
        else some ((digitsToNat ip : Rat) + (digitsToNat fp : Rat) / (10 : Rat) ^ fp.length)
      else none
    | _ => none
  mant.map (fun v => sgn * v)

/-- Month/day/year triple produced by the embedded `time.Parse`. -/
structure Date where
  month : Nat
  day : Nat
  year : Nat
deriving DecidableEq, Repr

/-- Leap-year test of the Gregorian calendar, as in Go's `time`. -/
def isLeapYear (y : Nat) : Bool :=
  (y % 4 == 0 && y % 100 != 0) || y % 400 == 0

/-- Number of days in a month, as in Go's `time`. -/
def daysInMonth (m y : Nat) : Nat :=
  if m = 2 then (if isLeapYear y then 29 else 28)
  else if m = 4 ∨ m = 6 ∨ m = 9 ∨ m = 11 then 30
  else 31

/-- Embeds Go `time.Parse("01/02/2006", s)`: one- or two-digit month
and day, four-digit year, `/` separators, calendar-validated; any
deviation is a parse error. -/
def parseDateMMDDYYYY (s : String) : Option Date :=
  match s.data.splitOn '/' with
  | [mm, dd, yyyy] =>
    if 1 ≤ mm.length && mm.length ≤ 2 && mm.all Char.isDigit &&
       1 ≤ dd.length && dd.length ≤ 2 && dd.all Char.isDigit &&
       yyyy.length == 4 && yyyy.all Char.isDigit then
      let m := digitsToNat mm
      let d := digitsToNat dd
      let y := digitsToNat yyyy
      if 1 ≤ m && m ≤ 12 && 1 ≤ d && d ≤ daysInMonth m y then
        some ⟨m, d, y⟩
      else none
    else none
  | _ => none

/-- Zero-padded two-digit rendering, as produced by Go layout `01`/`02`. -/
def pad2 (n : Nat) : String :=
  if n < 10 then "0" ++ toString n else toString n

/-- Embeds Go `t.Format("01/02/2006")` on a parsed date. -/
def formatDateMMDDYYYY (d : Date) : String :=
  pad2 d.month ++ "/" ++ pad2 d.day ++ "/" ++ toString d.year

/-- Embeds `map[string]string`, one per CSV data row (the parser's
output): a key is present iff the function returns `some`. -/
def RawRecord : Type := String → Option String

/-- Embeds Go map indexing `record[key]`, which yields the zero value
`""` for an absent key. -/
def rawGet (record : RawRecord) (key : String) : String :=
  (record key).getD ""

/-- Embeds `model.Transaction` (datalake/model/transaction.go). -/
structure Transaction where
  details : String
  postingDate : String
  description : String
  amount : Rat
  category : String
  type : String
  balance : Rat
  checkOrSlipNum : String
  dataSource : String
  accountID : String
deriving DecidableEq, Repr

/-- Embeds `getPostingDate` (datalake/datalake.go): first header in
`validHeaders` that is present in the record with a non-empty value. -/
def getPostingDate (record : RawRecord) (validHeaders : List String) : String :=
  match validHeaders with
  | [] => ""
  | h :: rest =>
    match record h with
    | some date => if date ≠ "" then date else getPostingDate record rest
    | none => getPostingDate record rest

/-- Embeds the loop body of `fromRecords` (datalake/datalake.go): a
`continue` is `none`, an `append` is `some`.  A missing/unparsable
posting date or an unparsable amount drops the record; an absent,
empty, or unparsable balance yields balance `0`. -/
def recordToTransaction (dataSource accountID : String)
    (validHeaders : List String) (record : RawRecord) : Option Transaction :=
  let postingDateStr := getPostingDate record validHeaders
  if postingDateStr = "" then none
  else
    match parseDateMMDDYYYY postingDateStr with
    | none => none
    | some d =>
      match parseFloat (rawGet record "amount") with
      | none => none
      | some amount =>
        let balance : Rat :=
          match record "balance" with
          | some balanceStr =>
            if balanceStr ≠ "" then
              match parseFloat balanceStr with
              | some b => b
              | none => 0
            else 0
          | none => 0
        some { details := rawGet record "details"
               postingDate := formatDateMMDDYYYY d
               description := rawGet record "description"
               amount := amount
               category := rawGet record "category"
               type := rawGet record "type"
               balance := balance
               checkOrSlipNum := rawGet record "check or slip #"
               dataSource := dataSource
               accountID := accountID }

/-- Embeds `fromRecords` (datalake/datalake.go): the `for` loop over
raw records, preserving order, dropping records per
`recordToTransaction`. -/
def fromRecords (dataSource accountID : String) (rawRecords : List RawRecord)
    (validHeaders : List String) : List Transaction :=
  rawRecords.filterMap (recordToTransaction dataSource accountID validHeaders)

/-- Embeds the literal `validPostingDateHeaders` list of
`mapRawRecordsToTransactions` (datalake/datalake.go). -/
def validPostingDateHeaders : List String :=
  ["Post Date", "Posting Date", "post date", "posting date"]

/-- Embeds `mapRawRecordsToTransactions` (datalake/datalake.go):
normalizes all raw records, and fails at file level iff there was at
least one raw record but no transaction survived. -/
def mapRawRecordsToTransactions (rawRecords : List RawRecord)
    (dataSource accountID : String) : Except String (List Transaction) :=
  let transactions := fromRecords dataSource accountID rawRecords validPostingDateHeaders
  if rawRecords.length > 0 ∧ transactions.length = 0 then
    .error ("no valid transactions could be processed from " ++
      toString rawRecords.length ++ " raw records")
  else
    .ok transactions

/-! ## CSV parser (csv package, `DefaultParser.Parse`) -/

/-- Embeds `safeGet` (csv package): bounds-safe slice indexing that
yields `""` beyond the end. -/
def safeGet (slice : List String) (index : Nat) : String :=
  if h : index < slice.length then slice.get ⟨index, h⟩ else ""

/-- Index of the last occurrence of `k` in `keys`, or `none`.  This is
the lookup of the Go column-index map built by
`for i, col := range header { colIndex[strings.ToLower(col)] = i }`,
where a later assignment to the same key overwrites an earlier one. -/
def lastIdxOf (keys : List String) (k : String) : Option Nat :=
  match keys with
  | [] => none
  | key :: rest =>
    match lastIdxOf rest k with
    | some j => some (j + 1)
    | none => if key = k then some 0 else none

/-- Embeds the construction of one `doc` in `DefaultParser.Parse`: the
raw record holds every lowercased header key, mapped to the row value
at that key's column index (bounds-safe). -/
def mkDoc (header record : List String) : RawRecord :=
  fun k => (lastIdxOf (header.map goToLower) k).map (fun i => safeGet record i)

/-- One read result of Go's `csv.Reader.Read`: a field slice, or a
read error (e.g. malformed quoting).  End of file is the end of the
list. -/
abbrev ReadRow : Type := Except String (List String)

/-- Embeds the record loop of `DefaultParser.Parse`: rows shorter than
the header are skipped; a read error aborts, discarding all documents
accumulated so far and returning `(nil, 0, err)`. -/
def readLoop (filePath : String) (header : List String) :
    List ReadRow → List RawRecord × Nat × Option String
  | [] => ([], 0, none)
  | .error e :: _ =>
    ([], 0, some ("failed to read record from CSV in file " ++ filePath ++ ": " ++ e))
  | .ok record :: rest =>
    if record.length < header.length then readLoop filePath header rest
    else
      match readLoop filePath header rest with
      | (_, _, some e) => ([], 0, some e)
      | (docs, cnt, none) => (mkDoc header record :: docs, cnt + 1, none)

/-- Embeds `DefaultParser.Parse` after a successful file open, on the
reader's stream of rows: an empty file yields `(nil, 0, nil)`; a header
read error aborts; otherwise the record loop runs.  The source's final
`if len(documents) == 0 { return nil, 0, nil }` is the identity here
because documents and the count grow together. -/
def parseRows (filePath : String) (rows : List ReadRow) :
    List RawRecord × Nat × Option String :=
  match rows with
  | [] => ([], 0, none)
  | .error e :: _ =>
    ([], 0, some ("failed to read CSV header from file " ++ filePath ++ ": " ++ e))
  | .ok header :: dataRows => readLoop filePath header dataRows

/-- Column permutation of one row: entry `i` of the result is entry
`σ i` of the input (bounds-safe), so the header cell and the
corresponding cell of every data row move together. -/
def permuteRow {n : Nat} (σ : Equiv.Perm (Fin n)) (row : List String) : List String :=
  List.ofFn (fun i => safeGet row (σ i))

/-! ## Source extractor (datasource package, `ChaseExtractor.ExtractInfo`) -/

/-- Embeds `datasource.SourceInfo`. -/
structure SourceInfo where
  dataSource : String
  accountID : String
deriving DecidableEq, Repr

/-- Match of the regular expression `chase(\d{4})` at the head of the
character list: the literal `chase` immediately followed by four ASCII
digits, whose digits are returned. -/
def matchChaseAt (l : List Char) : Option String :=
  match l with
  | 'c' :: 'h' :: 'a' :: 's' :: 'e' :: d1 :: d2 :: d3 :: d4 :: _ =>
    if d1.isDigit && d2.isDigit && d3.isDigit && d4.isDigit then
      some (String.mk [d1, d2, d3, d4])
    else none
  | _ => none

/-- Leftmost match of `chase(\d{4})`, as found by
`regexp.FindStringSubmatch`: scan positions left to right and return
the first position's digit group. -/
def chaseScan : List Char → Option String
  | [] => none
  | c :: rest =>
    match matchChaseAt (c :: rest) with
    | some digits => some digits
    | none => chaseScan rest

/-- Embeds `ChaseExtractor.ExtractInfo`
(datasource/chase_extractor.go): lowercase the filename, find
`chase(\d{4})`, and return `{chase, digits}` on a match; `none` embeds
the fixed `ErrUnableToExtractInfo`. -/
def chaseExtractInfo (filename : String) : Option SourceInfo :=
  match chaseScan (goToLower filename).data with
  | some digits => some ⟨"chase", digits⟩
  | none => none

/-- States, in the words of the specification, that a lowercased
filename matches the literal `chase` followed by exactly 4 digits
somewhere in the string.  This definition follows the spec text, to be
compared with the source-derived `chaseExtractInfo`. -/
def specMatchesChase4 (l : List Char) : Prop :=
  ∃ pre d1 d2 d3 d4 rest, l = pre ++ ['c', 'h', 'a', 's', 'e', d1, d2, d3, d4] ++ rest ∧
    d1.isDigit ∧ d2.isDigit ∧ d3.isDigit ∧ d4.isDigit

/-! ## Stats accumulator (datalake package, part of the `Stats` type) -/

/-- Embeds `datalake.Stats`; the `Failures` Go map is an association
list written only through `mapSet`, which keeps one entry per key. -/
structure Stats where
  totalFiles : Nat
  processedFiles : Nat
  failedFiles : Nat
  failures : List (String × String)
deriving DecidableEq, Repr

/-- Embeds Go map assignment `m[k] = v`: overwrite the entry for `k`
if present, otherwise add one. -/
def mapSet (m : List (String × String)) (k v : String) : List (String × String) :=
  match m with
  | [] => [(k, v)]
  | (k', v') :: rest => if k' = k then (k, v) :: rest else (k', v') :: mapSet rest k v

/-- Embeds `NewStats`. -/
def Stats.new : Stats :=
  { totalFiles := 0, processedFiles := 0, failedFiles := 0, failures := [] }

/-- Embeds `Stats.AddFailure`: increments `FailedFiles` and writes
`Failures[file] = reason`. -/
def Stats.addFailure (s : Stats) (file reason : String) : Stats :=
  { s with failedFiles := s.failedFiles + 1, failures := mapSet s.failures file reason }

/-- Embeds `Stats.IncrementProcessed`. -/
def Stats.incrementProcessed (s : Stats) : Stats :=
  { s with processedFiles := s.processedFiles + 1 }

/-! ## Mongo repository (storage package, `MongoRepository.BulkUpsertTransactions`) -/

/-- Natural key of a transaction: the five fields of the Mongo upsert
filter `{Details, PostingDate, Description, dataSource, accountID}`. -/
def natKey (t : Transaction) : String × String × String × String × String :=
  (t.details, t.postingDate, t.description, t.dataSource, t.accountID)

/-- Embeds one `UpdateOneModel` with `SetFilter(natural key)`,
`SetUpdate({$set: doc})`, `SetUpsert(true)` applied to a collection:
replace the first (under no-duplicate keys, the only) document whose
natural key matches, else insert the document. -/
def upsertOne (coll : List Transaction) (t : Transaction) : List Transaction :=
  match coll with
  | [] => [t]
  | u :: rest => if natKey u = natKey t then t :: rest else u :: upsertOne rest t

/-- Embeds the `BulkWrite` of the batch: one upsert per transaction, in
batch order. -/
def applyBatch (coll : List Transaction) (txs : List Transaction) : List Transaction :=
  txs.foldl upsertOne coll

/-- Embeds `model.SyncLog`; the wall-clock timestamp is a `Nat`. -/
structure SyncLog where
  collectionName : String
  syncTimestamp : Nat
  recordsUploaded : Nat
deriving DecidableEq, Repr

/-- State of the Mongo store: the per-name transaction collections and
the `dataSync` collection of sync-log documents. -/
structure MongoState where
  colls : String → List Transaction
  syncLogs : List SyncLog

/-- Embeds `MongoRepository.BulkUpsertTransactions` (storage package):
an empty batch is a success no-op; otherwise one upsert per transaction
is applied to collection `transactions_<dataSource of the first
transaction>`, and on success exactly one sync-log entry is inserted
with `RecordsUploaded = len(transactions)`.  The underlying writes
succeed deterministically here (store faults are injected at the
orchestrator's repository interface instead). -/
def bulkUpsertTransactions (st : MongoState) (now : Nat) (txs : List Transaction) :
    MongoState × Except String Unit :=
  match txs with
  | [] => (st, .ok ())
  | t0 :: _ =>
    let collectionName := "transactions_" ++ t0.dataSource
    let coll := applyBatch (st.colls collectionName) txs
    ({ colls := fun n => if n = collectionName then coll else st.colls n,
       syncLogs := st.syncLogs ++ [⟨collectionName, now, txs.length⟩] },
     .ok ())

/-- First stored document whose natural key is `k` (the document a
Mongo filter on the natural key finds). -/
def findByKey (coll : List Transaction) (k : String × String × String × String × String) :
    Option Transaction :=
  match coll with
  | [] => none
  | u :: rest => if natKey u = k then some u else findByKey rest k

/-- Last transaction of a batch whose natural key is `k`: the value a
key holds after all of the batch's upserts have run, if any matched. -/
def lastUpsert (txs : List Transaction) (k : String × String × String × String × String) :
    Option Transaction :=
  match txs with
  | [] => none
  | t :: ts =>
    match lastUpsert ts k with
    | some u => some u
    | none => if natKey t = k then some t else none

/-- No two stored documents share a natural key. -/
def NoDupKeys (coll : List Transaction) : Prop :=
  (coll.map natKey).Nodup

/-! ## Orchestrator (datalake package, client.go and datalake.go) -/

/-- Embeds `os.DirEntry` as the orchestrator reads it: a name and an
is-directory flag. -/
structure DirEntry where
  name : String
  isDir : Bool
deriving DecidableEq, Repr

/-- Embeds `validateCSVFile` (datalake/datalake.go): false iff the
entry is a directory or has neither the exact suffix `.csv` nor the
exact suffix `.CSV`. -/
def validateCSVFile (file : DirEntry) : Bool :=
  if file.isDir || (!goHasSuffix file.name ".csv" && !goHasSuffix file.name ".CSV") then
    false
  else true

/-- Embeds `sanitizeFilePath` (datalake/datalake.go); `filepath.Clean`
and `filepath.Join` are modelled as plain joining, which no claim
distinguishes. -/
def sanitizeFilePath (file : DirEntry) (dir : String) : String :=
  dir ++ "/" ++ file.name

/-- Injected dependencies of the per-file pipeline, mirroring the
interfaces `CSVFileProcessor` is programmed against: the
`InfoExtractor`, the `Parser` (its result on each path), the
`Repository` (stateful over `σ`), and the outcome of the
`moveFile` filesystem step. -/
structure Deps (σ : Type) where
  extract : String → Except String SourceInfo
  parse : String → Except String (List RawRecord × Nat)
  persist : σ → List Transaction → σ × Except String Unit
  move : String → Except String Unit

/-- Embeds `CSVFileProcessor.processFile` (datalake/datalake.go):
extract source info, parse, normalize, bulk-upsert, then move the file
only if `moveProcessedFiles` is enabled; the first failing stage aborts
the file with its (wrapped) error. -/
def processFile {σ : Type} (deps : Deps σ) (moveProcessedFiles : Bool)
    (unprocessedDir : String) (st : σ) (file : DirEntry) : σ × Except String Unit :=
  match deps.extract file.name with
  | .error e => (st, .error ("failed to extract source info: " ++ e))
  | .ok info =>
    match deps.parse (sanitizeFilePath file unprocessedDir) with
    | .error e => (st, .error e)
    | .ok (rawRecords, _) =>
      match mapRawRecordsToTransactions rawRecords info.dataSource info.accountID with
      | .error e => (st, .error e)
      | .ok transactions =>
        match deps.persist st transactions with
        | (st', .error e) => (st', .error ("failed to bulk upsert transactions: " ++ e))
        | (st', .ok _) =>
          if moveProcessedFiles then
            match deps.move (sanitizeFilePath file unprocessedDir) with
            | .error e => (st', .error ("failed to move file: " ++ e))
            | .ok _ => (st', .ok ())
          else (st', .ok ())

/-- Embeds `CSVFileProcessor.ingestCSVFile` (datalake/datalake.go): a
validation failure records a stats failure and returns an error; a
pipeline failure records a stats failure and returns an error; success
increments the processed count. -/
def ingestCSVFile {σ : Type} (deps : Deps σ) (moveProcessedFiles : Bool)
    (unprocessedDir : String) (st : σ) (stats : Stats) (file : DirEntry) :
    σ × Stats × Option String :=
  if !validateCSVFile file then
    (st, stats.addFailure file.name "Not a valid CSV file",
     some ("file " ++ file.name ++ " is not a valid CSV file"))
  else
    match processFile deps moveProcessedFiles unprocessedDir st file with
    | (st', .error e) =>
      (st', stats.addFailure file.name e,
       some ("failed to process file " ++ file.name ++ ": " ++ e))
    | (st', .ok _) => (st', stats.incrementProcessed, none)

/-- Embeds the per-file loop of `client.IngestCSVFiles` (client.go):
each file is ingested in listing order, and a returned error is
recorded by the caller as a further stats failure. -/
def ingestLoop {σ : Type} (deps : Deps σ) (moveProcessedFiles : Bool)
    (unprocessedDir : String) (acc : σ × Stats) (files : List DirEntry) : σ × Stats :=
  files.foldl
    (fun acc file =>
      match ingestCSVFile deps moveProcessedFiles unprocessedDir acc.1 acc.2 file with
      | (st', stats', some e) => (st', stats'.addFailure file.name e)
      | (st', stats', none) => (st', stats'))
    acc

/-- Embeds `client.IngestCSVFiles` (client.go): a failed directory
listing aborts the run with a wrapped error before any per-file work;
otherwise `TotalFiles` is set from the listing, every entry is
ingested, and the stats are returned with a nil run-level error. -/
def IngestCSVFiles {σ : Type} (deps : Deps σ) (moveProcessedFiles : Bool)
    (unprocessedDir : String) (st : σ) (listing : Except String (List DirEntry)) :
    Except String (σ × Stats) :=
  match listing with
  | .error e => .error ("failed to read directory: " ++ e)
  | .ok files =>
    .ok (ingestLoop deps moveProcessedFiles unprocessedDir
      (st, { Stats.new with totalFiles := files.length }) files)

/-- Dependencies whose extractor and parser always fail and whose
repository and file move always succeed; used to instantiate
orchestrator theorems at entries that never reach those stages. -/
def trivialDeps : Deps Unit where
  extract := fun _ => .error "unable to extract source info from filename"
  parse := fun _ => .error "failed to open file"
  persist := fun st _ => (st, .ok ())
  move := fun _ => .ok ()

/-- Embeds a Go map read `m[k]` on the `Stats.Failures` association
list. -/
def lookupFailure (m : List (String × String)) (k : String) : Option String :=
  match m with
  | [] => none
  | (k', v) :: rest => if k' = k then some v else lookupFailure rest k

/-! ## Scenario C fixture: a directory with 3 entries, of which one has
a non-CSV extension, one fails source extraction, and one completes the
pipeline. -/

/-- Raw record of the one file that completes the pipeline: a valid
posting date and amount. -/
def scenarioCRecord : RawRecord := fun k =>
  if k = "posting date" then some "01/01/2024"
  else if k = "amount" then some "-4.50"
  else if k = "details" then some "DEBIT"
  else none

/-- Dependencies for scenario C: extraction succeeds only for
`chase1234.csv`, parsing yields one valid record, persistence and the
file move succeed. -/
def scenarioCDeps : Deps Unit where
  extract := fun name =>
    if name = "chase1234.csv" then .ok ⟨"chase", "1234"⟩
    else .error "unable to extract source info from filename"
  parse := fun _ => .ok ([scenarioCRecord], 1)
  persist := fun st _ => (st, .ok ())
  move := fun _ => .ok ()

/-- The three directory entries of scenario C. -/
def scenarioCFiles : List DirEntry :=
  [⟨"notes.txt", false⟩, ⟨"report.csv", false⟩, ⟨"chase1234.csv", false⟩]

/-- Record with a valid date and amount but a non-numeric balance. -/
def recordBadBalance : RawRecord := fun k =>
  if k = "posting date" then some "01/01/2024"
  else if k = "amount" then some "-4.50"
  else if k = "balance" then some "abc"
  else none

/-- Record with a valid date but a non-numeric amount. -/
def recordBadAmount : RawRecord := fun k =>
  if k = "posting date" then some "01/01/2024"
  else if k = "amount" then some "oops"
  else if k = "balance" then some "100.00"
  else none

/-- Permutation that swaps the two columns of a two-column header. -/
def colSwap : Equiv.Perm (Fin (["a", "b"] : List String).length) :=
  Equiv.swap ⟨0, by decide⟩ ⟨1, by decide⟩

/-- C1: the claim states that scenario C yields
`Stats{TotalFiles: 3, ProcessedFiles: 1, FailedFiles: 2}` with every
entry accounted for exactly once.  The code instead records every
failing entry twice — `ingestCSVFile` calls `Stats.AddFailure` and then
returns an error which `IngestCSVFiles` records with a second
`AddFailure` — so the run yields `TotalFiles = 3`, `ProcessedFiles = 1`,
`FailedFiles = 4`, while the `Failures` map holds only the 2 distinct
filenames.  This theorem evaluates the embedded code at the failing
input. -/
theorem scenarioC_stats_double_count :
    (IngestCSVFiles scenarioCDeps false "unprocessed" () (.ok scenarioCFiles)).map
      (fun p => (p.2.totalFiles, p.2.processedFiles, p.2.failedFiles, p.2.failures.length)) =
    .ok (3, 1, 4, 2) := rfl

/-- C3 (counterexample): the claim states that every successfully
processed file appends exactly one sync-log entry, in particular a file
whose pipeline succeeds with zero transactions.  Here a file parses to
zero raw records, the whole per-file pipeline succeeds, yet the
`dataSync` collection stays empty, because `BulkUpsertTransactions`
returns early on an empty batch before the sync-log insert. -/
theorem syncLog_zero_batch_counterexample :
    (processFile
      { extract := fun _ => .ok ⟨"chase", "1234"⟩
        parse := fun _ => .ok ([], 0)
        persist := fun st txs => bulkUpsertTransactions st 7 txs
        move := fun _ => .ok () }
      false "unprocessed" ⟨fun _ => [], []⟩ ⟨"chase1234.csv", false⟩).2 = .ok () ∧
    (processFile
      { extract := fun _ => .ok ⟨"chase", "1234"⟩
        parse := fun _ => .ok ([], 0)
        persist := fun st txs => bulkUpsertTransactions st 7 txs
        move := fun _ => .ok () }
      false "unprocessed" ⟨fun _ => [], []⟩ ⟨"chase1234.csv", false⟩).1.syncLogs = [] :=
  ⟨rfl, rfl⟩

/-- C3 (amended): a successful bulk upsert of a non-empty batch appends
exactly one sync-log entry whose `RecordsUploaded` is the number of
transactions attempted (the batch length, not the count actually
changed); an empty batch is a success no-op that appends no sync-log
entry. -/
theorem syncLog_appended_iff_nonempty_batch (st : MongoState) (now : Nat)
    (t0 : Transaction) (ts : List Transaction) :
    (bulkUpsertTransactions st now (t0 :: ts)).1.syncLogs =
      st.syncLogs ++ [⟨"transactions_" ++ t0.dataSource, now, ts.length + 1⟩] ∧
    (bulkUpsertTransactions st now (t0 :: ts)).2 = .ok () ∧
    bulkUpsertTransactions st now [] = (st, .ok ()) :=
  ⟨rfl, rfl, rfl⟩

/-- C6: if the input had one or more raw records but normalization
produced zero transactions, `mapRawRecordsToTransactions` fails at file
level; if the input had zero raw records, it succeeds with an empty
result. -/
theorem normalize_total_loss_error (dataSource accountID : String) :
    (∀ rawRecords : List RawRecord, rawRecords ≠ [] →
      fromRecords dataSource accountID rawRecords validPostingDateHeaders = [] →
      mapRawRecordsToTransactions rawRecords dataSource accountID =
        .error ("no valid transactions could be processed from " ++
          toString rawRecords.length ++ " raw records")) ∧
    mapRawRecordsToTransactions [] dataSource accountID = .ok [] := by
  constructor
  · intro rawRecords hne hempty
    unfold mapRawRecordsToTransactions
    rw [hempty]
    simp [List.length_pos, hne]
  · rfl

/-- Closed instance of `normalize_total_loss_error`: a single record
with no posting date is dropped, so normalizing the one-record file
fails while normalizing the empty file succeeds. -/
theorem normalize_total_loss_error_witness :
    mapRawRecordsToTransactions [fun _ => none] "chase" "1234" =
      .error "no valid transactions could be processed from 1 raw records" ∧
    mapRawRecordsToTransactions [] "chase" "1234" = .ok [] :=
  ⟨(normalize_total_loss_error "chase" "1234").1 [fun _ => none] (by simp) rfl,
   (normalize_total_loss_error "chase" "1234").2⟩

/-- C10: `Parse` is all-or-nothing per file: if reading any data row
fails after a successfully read header, the parser returns the wrapped
read error together with an empty record list and a zero count, even
when records were successfully parsed before the failure. -/
theorem parse_all_or_nothing (filePath : String) (header : List String)
    (good : List (List String)) (e : String) (rest : List ReadRow) :
    parseRows filePath (.ok header :: (good.map Except.ok ++ .error e :: rest)) =
      ([], 0, some ("failed to read record from CSV in file " ++ filePath ++ ": " ++ e)) := by
  show readLoop filePath header (good.map Except.ok ++ .error e :: rest) = _
  induction good with
  | nil => rfl
  | cons record rows ih =>
    show readLoop filePath header (.ok record :: (rows.map Except.ok ++ .error e :: rest)) = _
    unfold readLoop
    by_cases h : record.length < header.length
    · simp only [h, if_true]
      exact ih
    · simp only [h, if_false]
      rw [ih]

/-- C8 (counterexample): the claim states that the `.csv` extension is
compared case-insensitively, so that `.Csv` is eligible.  The code
checks only the exact suffixes `.csv` and `.CSV`, so a regular file
named `stmt.Csv` — whose lowercased name does end in `.csv` — is
rejected by validation. -/
theorem validate_csv_case_counterexample :
    validateCSVFile ⟨"stmt.Csv", false⟩ = false ∧
    goHasSuffix (goToLower "stmt.Csv") ".csv" = true := by
  constructor <;> decide

/-- C8 (amended): a directory entry is eligible iff it is not a
directory and its name ends in the exact suffix `.csv` or the exact
suffix `.CSV`; an ineligible entry is recorded as a validation failure
under its filename (and the per-file error is not fatal: a run over any
listing still returns ok). -/
theorem validate_csv_exact_suffix :
    (∀ file : DirEntry, validateCSVFile file =
      (!file.isDir && (goHasSuffix file.name ".csv" || goHasSuffix file.name ".CSV"))) ∧
    (∀ {σ : Type} (deps : Deps σ) (flag : Bool) (dir : String) (st : σ) (stats : Stats)
      (file : DirEntry), validateCSVFile file = false →
      ingestCSVFile deps flag dir st stats file =
        (st, stats.addFailure file.name "Not a valid CSV file",
         some ("file " ++ file.name ++ " is not a valid CSV file"))) ∧
    (∀ {σ : Type} (deps : Deps σ) (flag : Bool) (dir : String) (st : σ)
      (files : List DirEntry),
      ∃ out, IngestCSVFiles deps flag dir st (.ok files) = .ok out) := by
  refine ⟨?_, ?_, ?_⟩
  · intro file
    unfold validateCSVFile
    cases file.isDir <;> cases goHasSuffix file.name ".csv" <;>
      cases goHasSuffix file.name ".CSV" <;> rfl
  · intro σ deps flag dir st stats file h
    unfold ingestCSVFile
    rw [h]
    rfl
  · intro σ deps flag dir st files
    exact ⟨_, rfl⟩

/-- Closed instance of `validate_csv_exact_suffix`: the entry
`data.txt` is ineligible and its ingestion records the validation
failure under its name; a run over that single entry returns ok. -/
theorem validate_csv_exact_suffix_witness :
    validateCSVFile ⟨"data.txt", false⟩ =
      (!(false : Bool) && (goHasSuffix "data.txt" ".csv" || goHasSuffix "data.txt" ".CSV")) ∧
    ingestCSVFile trivialDeps false "unprocessed" () Stats.new ⟨"data.txt", false⟩ =
      ((), Stats.new.addFailure "data.txt" "Not a valid CSV file",
       some "file data.txt is not a valid CSV file") :=
  ⟨validate_csv_exact_suffix.1 ⟨"data.txt", false⟩,
   validate_csv_exact_suffix.2.1 trivialDeps false "unprocessed" () Stats.new
     ⟨"data.txt", false⟩ (by decide)⟩

/-- Helper for C5: the empty string is not a parsable `MM/DD/YYYY`
date. -/
theorem parseDate_empty : parseDateMMDDYYYY "" = none := by decide

/-- C5: during normalization, a record whose balance column is absent,
empty, or non-numeric still yields a transaction with balance `0` and
is not dropped (provided its posting date parses and its amount
parses), whereas a record whose amount fails to parse is dropped
entirely and yields no transaction. -/
theorem normalize_balance_default_amount_drop (dataSource accountID : String)
    (r : RawRecord) (rest : List RawRecord) (d : Date)
    (hdate : parseDateMMDDYYYY (getPostingDate r validPostingDateHeaders) = some d) :
    ((r "balance" = none ∨ r "balance" = some "" ∨
        (∃ bs, r "balance" = some bs ∧ bs ≠ "" ∧ parseFloat bs = none)) →
      (parseFloat (rawGet r "amount")).isSome = true →
      ∃ t, recordToTransaction dataSource accountID validPostingDateHeaders r = some t ∧
        t.balance = 0 ∧
        fromRecords dataSource accountID (r :: rest) validPostingDateHeaders =
          t :: fromRecords dataSource accountID rest validPostingDateHeaders) ∧
    (parseFloat (rawGet r "amount") = none →
      fromRecords dataSource accountID (r :: rest) validPostingDateHeaders =
        fromRecords dataSource accountID rest validPostingDateHeaders) := by
  have hne : getPostingDate r validPostingDateHeaders ≠ "" := by
    intro h
    rw [h, parseDate_empty] at hdate
    exact Option.noConfusion hdate
  constructor
  · intro hbal hamt
    obtain ⟨a, ha⟩ := Option.isSome_iff_exists.mp hamt
    have hrec : recordToTransaction dataSource accountID validPostingDateHeaders r =
        some { details := rawGet r "details"
               postingDate := formatDateMMDDYYYY d
               description := rawGet r "description"
               amount := a
               category := rawGet r "category"
               type := rawGet r "type"
               balance := 0
               checkOrSlipNum := rawGet r "check or slip #"
               dataSource := dataSource
               accountID := accountID } := by
      unfold recordToTransaction
      rw [if_neg hne, hdate, ha]
      rcases hbal with hb | hb | ⟨bs, hb, hbs, hbf⟩
      · rw [hb]
      · rw [hb]
        simp
      · rw [hb]
        simp [hbs, hbf]
    exact ⟨_, hrec, rfl, by
      unfold fromRecords
      rw [List.filterMap_cons, hrec]⟩
  · intro ha
    have hrec : recordToTransaction dataSource accountID validPostingDateHeaders r = none := by
      unfold recordToTransaction
      rw [if_neg hne, hdate, ha]
    unfold fromRecords
    rw [List.filterMap_cons, hrec]

/-- Closed instance of `normalize_balance_default_amount_drop`: the
non-numeric-balance record is kept with balance `0`; the
non-numeric-amount record is dropped. -/
theorem normalize_balance_default_amount_drop_witness :
    (∃ t, recordToTransaction "chase" "1234" validPostingDateHeaders recordBadBalance = some t ∧
      t.balance = 0 ∧
      fromRecords "chase" "1234" [recordBadBalance] validPostingDateHeaders =
        t :: fromRecords "chase" "1234" [] validPostingDateHeaders) ∧
    fromRecords "chase" "1234" [recordBadAmount] validPostingDateHeaders =
      fromRecords "chase" "1234" [] validPostingDateHeaders :=
  ⟨(normalize_balance_default_amount_drop "chase" "1234" recordBadBalance [] ⟨1, 1, 2024⟩
      (by decide)).1
    (Or.inr (Or.inr ⟨"abc", rfl, by decide, by decide⟩)) (by decide),
   (normalize_balance_default_amount_drop "chase" "1234" recordBadAmount [] ⟨1, 1, 2024⟩
      (by decide)).2 (by decide)⟩

/-- Writing a key into the failures map makes that key readable. -/
theorem lookupFailure_mapSet_self (m : List (String × String)) (k v : String) :
    lookupFailure (mapSet m k v) k = some v := by
  induction m with
  | nil => simp [mapSet, lookupFailure]
  | cons p rest ih =>
    obtain ⟨k', v'⟩ := p
    unfold mapSet
    by_cases h : k' = k
    · simp [h, lookupFailure]
    · simp [h, lookupFailure, ih]

/-- Writing one key into the failures map does not change reads of
another key. -/
theorem lookupFailure_mapSet_ne (m : List (String × String)) (k k' v : String)
    (h : k ≠ k') : lookupFailure (mapSet m k' v) k = lookupFailure m k := by
  induction m with
  | nil =>
    show lookupFailure [(k', v)] k = lookupFailure [] k
    simp [lookupFailure, Ne.symm h]
  | cons p rest ih =>
    obtain ⟨a, b⟩ := p
    show lookupFailure (if a = k' then (k', v) :: rest else (a, b) :: mapSet rest k' v) k = _
    by_cases ha : a = k'
    · subst ha
      simp [lookupFailure, Ne.symm h]
    · rw [if_neg ha]
      show (if a = k then some b else lookupFailure (mapSet rest k' v) k) =
        (if a = k then some b else lookupFailure rest k)
      rw [ih]

/-- Writing into the failures map preserves presence of every key. -/
theorem lookupFailure_mapSet_isSome (m : List (String × String)) (k k' v : String)
    (h : (lookupFailure m k).isSome = true) :
    (lookupFailure (mapSet m k' v) k).isSome = true := by
  by_cases hk : k = k'
  · subst hk
    rw [lookupFailure_mapSet_self]
    rfl
  · rw [lookupFailure_mapSet_ne m k k' v hk]
    exact h

/-- Ingesting one file never removes a key from the failures map. -/
theorem ingestCSVFile_preserves_failure {σ : Type} (deps : Deps σ) (flag : Bool)
    (dir : String) (st : σ) (stats : Stats) (file : DirEntry) (k : String)
    (h : (lookupFailure stats.failures k).isSome = true) :
    (lookupFailure (ingestCSVFile deps flag dir st stats file).2.1.failures k).isSome = true := by
  unfold ingestCSVFile
  cases hv : validateCSVFile file with
  | false =>
    simp only [hv, Bool.not_false, if_true]
    exact lookupFailure_mapSet_isSome _ _ _ _ h
  | true =>
    simp only [hv, Bool.not_true, if_false]
    rcases hp : processFile deps flag dir st file with ⟨st', r⟩
    cases r
    · exact lookupFailure_mapSet_isSome _ _ _ _ h
    · exact h

/-- One step of the ingest loop (ingestion plus the caller's failure
recording) never removes a key from the failures map. -/
theorem ingestStep_preserves_failure {σ : Type} (deps : Deps σ) (flag : Bool)
    (dir : String) (acc : σ × Stats) (file : DirEntry) (k : String)
    (h : (lookupFailure acc.2.failures k).isSome = true) :
    (lookupFailure
      (match ingestCSVFile deps flag dir acc.1 acc.2 file with
       | (st', stats', some e) => (st', stats'.addFailure file.name e)
       | (st', stats', none) => (st', stats')).2.failures k).isSome = true := by
  have h1 := ingestCSVFile_preserves_failure deps flag dir acc.1 acc.2 file k h
  rcases hq : ingestCSVFile deps flag dir acc.1 acc.2 file with ⟨st', stats', err⟩
  rw [hq] at h1
  cases err
  · exact h1
  · exact lookupFailure_mapSet_isSome _ _ _ _ h1

/-- The ingest loop over concatenated listings composes. -/
theorem ingestLoop_append {σ : Type} (deps : Deps σ) (flag : Bool) (dir : String)
    (acc : σ × Stats) (l1 l2 : List DirEntry) :
    ingestLoop deps flag dir acc (l1 ++ l2) =
      ingestLoop deps flag dir (ingestLoop deps flag dir acc l1) l2 := by
  unfold ingestLoop
  exact List.foldl_append ..

/-- Unfolding of one step of the ingest loop. -/
theorem ingestLoop_cons {σ : Type} (deps : Deps σ) (flag : Bool) (dir : String)
    (acc : σ × Stats) (f : DirEntry) (fs : List DirEntry) :
    ingestLoop deps flag dir acc (f :: fs) =
      ingestLoop deps flag dir
        (match ingestCSVFile deps flag dir acc.1 acc.2 f with
         | (st', stats', some e) => (st', stats'.addFailure f.name e)
         | (st', stats', none) => (st', stats')) fs := rfl

/-- The ingest loop never removes a key from the failures map. -/
theorem ingestLoop_preserves_failure {σ : Type} (deps : Deps σ) (flag : Bool)
    (dir : String) (files : List DirEntry) :
    ∀ (acc : σ × Stats) (k : String), (lookupFailure acc.2.failures k).isSome = true →
    (lookupFailure (ingestLoop deps flag dir acc files).2.failures k).isSome = true := by
  induction files with
  | nil => intro acc k h; exact h
  | cons f fs ih =>
    intro acc k h
    rw [ingestLoop_cons]
    exact ih _ k (ingestStep_preserves_failure deps flag dir acc f k h)

/-- C2: the run returns a non-nil run-level error iff the directory
listing cannot be read (in which case no per-file work happens); an ok
listing always yields ok stats — no single file's failure aborts the
run — and whenever a file's ingestion fails at any stage, that
filename is present in the final `Failures` map while the remaining
entries are still processed. -/
theorem ingest_run_error_isolation :
    (∀ {σ : Type} (deps : Deps σ) (flag : Bool) (dir : String) (st : σ) (e : String),
      IngestCSVFiles deps flag dir st (.error e) =
        .error ("failed to read directory: " ++ e)) ∧
    (∀ {σ : Type} (deps : Deps σ) (flag : Bool) (dir : String) (st : σ)
      (files : List DirEntry),
      ∃ out, IngestCSVFiles deps flag dir st (.ok files) = .ok out) ∧
    (∀ {σ : Type} (deps : Deps σ) (flag : Bool) (dir : String) (acc : σ × Stats)
      (files₁ : List DirEntry) (f : DirEntry) (files₂ : List DirEntry) (e : String),
      (ingestCSVFile deps flag dir (ingestLoop deps flag dir acc files₁).1
        (ingestLoop deps flag dir acc files₁).2 f).2.2 = some e →
      (lookupFailure
        (ingestLoop deps flag dir acc (files₁ ++ f :: files₂)).2.failures f.name).isSome =
        true) := by
  refine ⟨fun deps flag dir st e => rfl, fun deps flag dir st files => ⟨_, rfl⟩, ?_⟩
  intro σ deps flag dir acc files₁ f files₂ e h
  rw [ingestLoop_append, ingestLoop_cons]
  rcases hq : ingestCSVFile deps flag dir (ingestLoop deps flag dir acc files₁).1
    (ingestLoop deps flag dir acc files₁).2 f with ⟨st', stats', err⟩
  rw [hq] at h
  cases err with
  | none => exact Option.noConfusion h
  | some e' =>
    apply ingestLoop_preserves_failure
    show (lookupFailure (mapSet stats'.failures f.name e') f.name).isSome = true
    rw [lookupFailure_mapSet_self]
    rfl

/-- One upsert changes exactly the filtered natural key's document. -/
theorem findByKey_upsertOne (coll : List Transaction) (t : Transaction)
    (k : String × String × String × String × String) :
    findByKey (upsertOne coll t) k = if k = natKey t then some t else findByKey coll k := by
  induction coll with
  | nil =>
    by_cases h : k = natKey t
    · simp [findByKey, upsertOne, h]
    · simp [findByKey, upsertOne, h, Ne.symm h]
  | cons u rest ih =>
    show findByKey (if natKey u = natKey t then t :: rest else u :: upsertOne rest t) k = _
    by_cases hu : natKey u = natKey t
    · rw [if_pos hu]
      by_cases h : k = natKey t
      · simp [findByKey, h]
      · have h1 : ¬natKey t = k := Ne.symm h
        have h2 : ¬natKey u = k := fun hh => h1 (hu ▸ hh)
        simp [findByKey, h, h1, h2]
    · rw [if_neg hu]
      by_cases hk : natKey u = k
      · have h1 : ¬k = natKey t := fun hh => hu (hk.trans hh)
        simp [findByKey, hk, h1]
      · simp only [findByKey, hk, if_neg hk]
        exact ih

/-- Unfolding of `lastUpsert` on a non-empty batch. -/
theorem lastUpsert_cons (t : Transaction) (ts : List Transaction)
    (k : String × String × String × String × String) :
    lastUpsert (t :: ts) k =
      match lastUpsert ts k with
      | some u => some u
      | none => if natKey t = k then some t else none := rfl

/-- A batch of upserts leaves each natural key holding the last batch
transaction with that key, and every unmatched key unchanged. -/
theorem findByKey_applyBatch (txs : List Transaction) :
    ∀ (coll : List Transaction) (k : String × String × String × String × String),
    findByKey (applyBatch coll txs) k =
      match lastUpsert txs k with
      | some u => some u
      | none => findByKey coll k := by
  induction txs with
  | nil => intro coll k; rfl
  | cons t ts ih =>
    intro coll k
    show findByKey (applyBatch (upsertOne coll t) ts) k = _
    rw [ih, lastUpsert_cons]
    cases hl : lastUpsert ts k with
    | some u => rfl
    | none =>
      rw [findByKey_upsertOne]
      by_cases h : natKey t = k
      · rw [if_pos h, if_pos h.symm]
      · rw [if_neg h, if_neg (Ne.symm h)]

/-- The list of stored natural keys after one upsert: unchanged when
the key was present, extended by the new key otherwise. -/
theorem map_natKey_upsertOne (coll : List Transaction) (t : Transaction) :
    (upsertOne coll t).map natKey =
      if natKey t ∈ coll.map natKey then coll.map natKey
      else coll.map natKey ++ [natKey t] := by
  induction coll with
  | nil => simp [upsertOne]
  | cons u rest ih =>
    show (if natKey u = natKey t then t :: rest else u :: upsertOne rest t).map natKey = _
    by_cases hu : natKey u = natKey t
    · have hm : natKey t ∈ (u :: rest).map natKey := by
        rw [List.map_cons, hu]
        exact List.mem_cons_self _ _
      rw [if_pos hu, if_pos hm, List.map_cons, List.map_cons, hu]
    · have hne : ¬natKey t = natKey u := Ne.symm hu
      rw [if_neg hu]
      by_cases hm : natKey t ∈ rest.map natKey
      · simp [hm, hne, ih]
      · simp [hm, hne, ih]

/-- One upsert never introduces a duplicate natural key. -/
theorem noDupKeys_upsertOne {coll : List Transaction} (t : Transaction)
    (h : NoDupKeys coll) : NoDupKeys (upsertOne coll t) := by
  unfold NoDupKeys at h ⊢
  rw [map_natKey_upsertOne]
  by_cases hm : natKey t ∈ coll.map natKey
  · rw [if_pos hm]; exact h
  · rw [if_neg hm]
    refine List.Nodup.append h (List.nodup_singleton _) ?_
    intro x hx hx1
    rw [List.mem_singleton] at hx1
    exact hm (hx1 ▸ hx)

/-- A whole batch of upserts never introduces a duplicate natural
key. -/
theorem noDupKeys_applyBatch (txs : List Transaction) :
    ∀ {coll : List Transaction}, NoDupKeys coll → NoDupKeys (applyBatch coll txs) := by
  induction txs with
  | nil => intro coll h; exact h
  | cons t ts ih =>
    intro coll h
    exact ih (noDupKeys_upsertOne t h)

/-- C4: `BulkUpsertTransactions` treats the empty batch as a success
no-op; an upsert whose natural key is already stored overwrites in
place (the collection does not grow); a batch never introduces
duplicate natural keys into a duplicate-free collection — so ingesting
the same file twice leaves no duplicates — and running the same batch
twice leaves every natural key bound to the same stored document as
running it once, at the level of `applyBatch` and of the whole Mongo
state. -/
theorem bulk_upsert_idempotent_no_duplicates :
    (∀ (st : MongoState) (now : Nat), bulkUpsertTransactions st now [] = (st, .ok ())) ∧
    (∀ (coll : List Transaction) (t : Transaction),
      natKey t ∈ coll.map natKey → (upsertOne coll t).length = coll.length) ∧
    (∀ (coll txs : List Transaction),
      NoDupKeys coll → NoDupKeys (applyBatch coll txs)) ∧
    (∀ (coll txs : List Transaction) (k : String × String × String × String × String),
      findByKey (applyBatch (applyBatch coll txs) txs) k =
        findByKey (applyBatch coll txs) k) ∧
    (∀ (st : MongoState) (now now' : Nat) (txs : List Transaction) (n : String)
      (k : String × String × String × String × String),
      findByKey ((bulkUpsertTransactions
          (bulkUpsertTransactions st now txs).1 now' txs).1.colls n) k =
        findByKey ((bulkUpsertTransactions st now txs).1.colls n) k) := by
  have hidem : ∀ (coll txs : List Transaction)
      (k : String × String × String × String × String),
      findByKey (applyBatch (applyBatch coll txs) txs) k =
        findByKey (applyBatch coll txs) k := by
    intro coll txs k
    rw [findByKey_applyBatch, findByKey_applyBatch]
    cases hl : lastUpsert txs k with
    | some u => rfl
    | none => rfl
  refine ⟨fun st now => rfl, ?_, fun coll txs h => noDupKeys_applyBatch txs h, hidem, ?_⟩
  · intro coll t hm
    have h1 : (upsertOne coll t).length = ((upsertOne coll t).map natKey).length :=
      (List.length_map _ _).symm
    rw [h1, map_natKey_upsertOne, if_pos hm, List.length_map]
  · intro st now now' txs n k
    cases txs with
    | nil => rfl
    | cons t0 ts =>
      have hcolls : ∀ (st : MongoState) (now : Nat) (m : String),
          (bulkUpsertTransactions st now (t0 :: ts)).1.colls m =
            if m = "transactions_" ++ t0.dataSource
            then applyBatch (st.colls ("transactions_" ++ t0.dataSource)) (t0 :: ts)
            else st.colls m := fun _ _ _ => rfl
      simp only [hcolls]
      by_cases h : n = "transactions_" ++ t0.dataSource
      · rw [if_pos h, if_pos h]
        simp only [if_true, eq_self_iff_true]
        exact hidem _ _ k
      · rw [if_neg h, if_neg h]

/-- Closed instance of `bulk_upsert_idempotent_no_duplicates`: with a
one-document collection, upserting a transaction with the stored
natural key does not grow the collection, and replaying a batch keeps
the store duplicate-free. -/
theorem bulk_upsert_idempotent_no_duplicates_witness :
    (upsertOne [⟨"D", "01/01/2024", "coffee", 0, "", "", 0, "", "chase", "1234"⟩]
        ⟨"D", "01/01/2024", "coffee", 0, "", "", 0, "", "chase", "1234"⟩).length = 1 ∧
    NoDupKeys (applyBatch
      (applyBatch [] [⟨"D", "01/01/2024", "coffee", 0, "", "", 0, "", "chase", "1234"⟩])
      [⟨"D", "01/01/2024", "coffee", 0, "", "", 0, "", "chase", "1234"⟩]) :=
  ⟨bulk_upsert_idempotent_no_duplicates.2.1 _ _ (by decide),
   bulk_upsert_idempotent_no_duplicates.2.2.1 _ _
     (bulk_upsert_idempotent_no_duplicates.2.2.1 [] _ List.nodup_nil)⟩

/-- Closed instance of `ingest_run_error_isolation`: a lone entry with
a non-CSV name fails validation and the final stats record that
filename. -/
theorem ingest_run_error_isolation_witness :
    (lookupFailure
      (ingestLoop trivialDeps false "unprocessed" ((), Stats.new)
        ([] ++ ⟨"data.bin", false⟩ :: [])).2.failures "data.bin").isSome = true :=
  ingest_run_error_isolation.2.2 trivialDeps false "unprocessed" ((), Stats.new) []
    ⟨"data.bin", false⟩ [] "file data.bin is not a valid CSV file" (by decide)

/-- A head-position regex match succeeds exactly on `chase` followed
by four digits. -/
theorem matchChaseAt_of_digits (d1 d2 d3 d4 : Char) (tail : List Char)
    (h1 : d1.isDigit = true) (h2 : d2.isDigit = true) (h3 : d3.isDigit = true)
    (h4 : d4.isDigit = true) :
    matchChaseAt ('c' :: 'h' :: 'a' :: 's' :: 'e' :: d1 :: d2 :: d3 :: d4 :: tail) =
      some (String.mk [d1, d2, d3, d4]) := by
  show (if (d1.isDigit && d2.isDigit && d3.isDigit && d4.isDigit) = true then
      some (String.mk [d1, d2, d3, d4]) else none) = some (String.mk [d1, d2, d3, d4])
  rw [h1, h2, h3, h4]
  rfl

/-- Inversion of a successful head-position match. -/
theorem matchChaseAt_some_decomp (l : List Char) (d : String)
    (h : matchChaseAt l = some d) :
    ∃ d1 d2 d3 d4 tail, l = 'c' :: 'h' :: 'a' :: 's' :: 'e' :: d1 :: d2 :: d3 :: d4 :: tail ∧
      d1.isDigit = true ∧ d2.isDigit = true ∧ d3.isDigit = true ∧ d4.isDigit = true := by
  unfold matchChaseAt at h
  split at h
  · next d1 d2 d3 d4 tail =>
    split at h
    · next hd =>
      simp only [Bool.and_eq_true] at hd
      exact ⟨d1, d2, d3, d4, tail, rfl, hd.1.1.1, hd.1.1.2, hd.1.2, hd.2⟩
    · exact Option.noConfusion h
  · exact Option.noConfusion h

/-- The left-to-right scan succeeds exactly when some position of the
string matches `chase` followed by four digits. -/
theorem chaseScan_isSome_iff (l : List Char) :
    (chaseScan l).isSome = true ↔ specMatchesChase4 l := by
  induction l with
  | nil =>
    constructor
    · intro h
      exact Bool.noConfusion h
    · rintro ⟨pre, d1, d2, d3, d4, rest, heq, -⟩
      exact absurd heq (by simp)
  | cons c rest ih =>
    show (match matchChaseAt (c :: rest) with
          | some digits => some digits
          | none => chaseScan rest).isSome = true ↔ _
    cases hm : matchChaseAt (c :: rest) with
    | some d =>
      simp only [Option.isSome_some, true_iff]
      obtain ⟨d1, d2, d3, d4, tail, heq, h1, h2, h3, h4⟩ := matchChaseAt_some_decomp _ _ hm
      exact ⟨[], d1, d2, d3, d4, tail, by rw [heq]; rfl, h1, h2, h3, h4⟩
    | none =>
      simp only []
      rw [ih]
      constructor
      · rintro ⟨pre, d1, d2, d3, d4, tl, heq, h1, h2, h3, h4⟩
        exact ⟨c :: pre, d1, d2, d3, d4, tl, by rw [heq]; rfl, h1, h2, h3, h4⟩
      · rintro ⟨pre, d1, d2, d3, d4, tl, heq, h1, h2, h3, h4⟩
        cases pre with
        | nil =>
          exfalso
          have : matchChaseAt (c :: rest) =
              some (String.mk [d1, d2, d3, d4]) := by
            rw [show c :: rest = 'c' :: 'h' :: 'a' :: 's' :: 'e' ::
              d1 :: d2 :: d3 :: d4 :: tl from heq]
            exact matchChaseAt_of_digits d1 d2 d3 d4 tl h1 h2 h3 h4
          rw [hm] at this
          exact Option.noConfusion this
        | cons p pre' =>
          have heq' : rest = pre' ++ ['c', 'h', 'a', 's', 'e', d1, d2, d3, d4] ++ tl := by
            have := heq
            rw [List.cons_append, List.cons_append] at this
            exact (List.cons.injEq _ _ _ _ ▸ this).2
          exact ⟨pre', d1, d2, d3, d4, tl, heq', h1, h2, h3, h4⟩

/-- C9: the pattern extractor returns
`SourceInfo{DataSource: chase, AccountID: the 4 digits}` exactly when
the lowercased filename contains the literal `chase` followed by 4
digits (`ErrUnableToExtractInfo`, embedded as `none`, otherwise); when
the lowercased name starts with `chase` and 4 digits those very digits
are the account id; in particular `chase1234_jan.csv` yields
`{chase, 1234}` and `randomfile.csv` fails. -/
theorem chase_extractor_spec :
    chaseExtractInfo "chase1234_jan.csv" = some ⟨"chase", "1234"⟩ ∧
    chaseExtractInfo "randomfile.csv" = none ∧
    (∀ s : String, (chaseExtractInfo s).isSome = true ↔
      specMatchesChase4 (goToLower s).data) ∧
    (∀ (s : String) (d1 d2 d3 d4 : Char) (tail : List Char),
      (goToLower s).data = 'c' :: 'h' :: 'a' :: 's' :: 'e' :: d1 :: d2 :: d3 :: d4 :: tail →
      d1.isDigit = true → d2.isDigit = true → d3.isDigit = true → d4.isDigit = true →
      chaseExtractInfo s = some ⟨"chase", String.mk [d1, d2, d3, d4]⟩) := by
  refine ⟨by decide, by decide, ?_, ?_⟩
  · intro s
    unfold chaseExtractInfo
    cases hs : chaseScan (goToLower s).data with
    | some d =>
      simp only [Option.isSome_some, true_iff]
      exact (chaseScan_isSome_iff _).mp (by rw [hs]; rfl)
    | none =>
      simp only []
      constructor
      · intro h
        exact Bool.noConfusion h
      · intro h
        have := (chaseScan_isSome_iff _).mpr h
        rw [hs] at this
        exact Bool.noConfusion this
  · intro s d1 d2 d3 d4 tail heq h1 h2 h3 h4
    unfold chaseExtractInfo
    rw [heq]
    show (match
        (match matchChaseAt ('c' :: 'h' :: 'a' :: 's' :: 'e' ::
            d1 :: d2 :: d3 :: d4 :: tail) with
         | some digits => some digits
         | none => chaseScan ('h' :: 'a' :: 's' :: 'e' ::
            d1 :: d2 :: d3 :: d4 :: tail)) with
      | some digits => some (⟨"chase", digits⟩ : SourceInfo)
      | none => none) = some ⟨"chase", String.mk [d1, d2, d3, d4]⟩
    rw [matchChaseAt_of_digits d1 d2 d3 d4 tail h1 h2 h3 h4]

/-- Closed instance of `chase_extractor_spec`: the mixed-case filename
`Chase9876.csv` starts (after lowercasing) with `chase` and 4 digits,
and those digits become the account id. -/
theorem chase_extractor_spec_witness :
    chaseExtractInfo "Chase9876.csv" = some ⟨"chase", String.mk ['9', '8', '7', '6']⟩ :=
  chase_extractor_spec.2.2.2 "Chase9876.csv" '9' '8' '7' '6' ".csv".data
    (by decide) (by decide) (by decide) (by decide) (by decide)

/-- In-bounds `safeGet` is `get`. -/
theorem safeGet_lt (l : List String) (i : Nat) (h : i < l.length) :
    safeGet l i = l.get ⟨i, h⟩ := dif_pos h

/-- `safeGet` on a table of function values returns the function
value. -/
theorem safeGet_ofFn {n : Nat} (f : Fin n → String) (j : Nat) (hj : j < n) :
    safeGet (List.ofFn f) j = f ⟨j, hj⟩ := by
  have hl : j < (List.ofFn f).length := by rw [List.length_ofFn]; exact hj
  rw [safeGet_lt _ _ hl, List.get_ofFn]
  exact congrArg f (Fin.ext rfl)

/-- Indexing past the head steps down. -/
theorem safeGet_cons_succ (x : String) (l : List String) (j : Nat) :
    safeGet (x :: l) (j + 1) = safeGet l j := by
  show (if h : j + 1 < (x :: l).length then (x :: l).get ⟨j + 1, h⟩ else "") = safeGet l j
  by_cases h : j < l.length
  · have h2 : j + 1 < (x :: l).length := Nat.succ_lt_succ h
    rw [dif_pos h2, safeGet_lt l j h]
    rfl
  · have h2 : ¬(j + 1 < (x :: l).length) := fun hh => h (Nat.lt_of_succ_lt_succ hh)
    rw [dif_neg h2]
    unfold safeGet
    rw [dif_neg h]

/-- A found last index is in bounds and holds the key. -/
theorem lastIdxOf_some (keys : List String) (k : String) :
    ∀ i, lastIdxOf keys k = some i → i < keys.length ∧ safeGet keys i = k := by
  induction keys with
  | nil => intro i h; exact Option.noConfusion h
  | cons key rest ih =>
    intro i h
    unfold lastIdxOf at h
    cases hr : lastIdxOf rest k with
    | some j =>
      rw [hr] at h
      obtain ⟨hj, hget⟩ := ih j hr
      cases h
      refine ⟨Nat.succ_lt_succ hj, ?_⟩
      rw [safeGet_cons_succ]
      exact hget
    | none =>
      rw [hr] at h
      by_cases hk : key = k
      · rw [if_pos hk] at h
        cases h
        refine ⟨Nat.succ_pos _, ?_⟩
        show (if h : 0 < (key :: rest).length then (key :: rest).get ⟨0, h⟩ else "") = k
        have h0 : 0 < (key :: rest).length := Nat.succ_pos _
        rw [dif_pos h0]
        exact hk
      · rw [if_neg hk] at h
        exact Option.noConfusion h

/-- The last index exists exactly for present keys. -/
theorem lastIdxOf_none_iff (keys : List String) (k : String) :
    lastIdxOf keys k = none ↔ k ∉ keys := by
  induction keys with
  | nil => simp [lastIdxOf]
  | cons key rest ih =>
    show (match lastIdxOf rest k with
          | some j => some (j + 1)
          | none => if key = k then some 0 else none) = none ↔ _
    cases hr : lastIdxOf rest k with
    | some j =>
      simp only []
      constructor
      · intro h; exact Option.noConfusion h
      · intro h
        exfalso
        apply h
        have : k ∈ rest := by
          by_contra hm
          rw [← ih] at hm
          rw [hm] at hr
          exact Option.noConfusion hr
        exact List.mem_cons_of_mem _ this
    | none =>
      simp only []
      by_cases hk : key = k
      · rw [if_pos hk]
        constructor
        · intro h; exact Option.noConfusion h
        · intro h; exact absurd (hk ▸ List.mem_cons_self key rest) h
      · rw [if_neg hk]
        constructor
        · intro _
          intro hm
          rcases List.mem_cons.mp hm with h | h
          · exact hk h.symm
          · exact (ih.mp hr) h
        · intro _; rfl

/-- Distinct entries are found at distinct indices. -/
theorem safeGet_inj_of_nodup (keys : List String) (hk : keys.Nodup) (i j : Nat)
    (hi : i < keys.length) (hj : j < keys.length)
    (h : safeGet keys i = safeGet keys j) : i = j := by
  rw [safeGet_lt _ _ hi, safeGet_lt _ _ hj] at h
  exact congrArg Fin.val ((List.Nodup.get_inj_iff hk).mp h)

/-- Under distinct keys, the entry at any index is found back at that
index. -/
theorem lastIdxOf_of_safeGet (keys : List String) (hk : keys.Nodup) (i : Nat)
    (hi : i < keys.length) (k : String) (hget : safeGet keys i = k) :
    lastIdxOf keys k = some i := by
  cases hj : lastIdxOf keys k with
  | none =>
    exfalso
    apply (lastIdxOf_none_iff keys k).mp hj
    rw [← hget, safeGet_lt _ _ hi]
    exact List.get_mem keys _ _
  | some j =>
    obtain ⟨hjl, hjget⟩ := lastIdxOf_some keys k j hj
    rw [safeGet_inj_of_nodup keys hk j i hjl hi (by rw [hjget, hget])]

/-- Reordering the columns of the header and of a (sufficiently long)
row together does not change the produced raw record, provided the
lowercased header names are pairwise distinct. -/
theorem mkDoc_permute (header : List String) (σ : Equiv.Perm (Fin header.length))
    (hdist : (header.map goToLower).Nodup) (r : List String) :
    mkDoc (permuteRow σ header) (permuteRow σ r) = mkDoc header r := by
  funext k
  have hkl : (header.map goToLower).length = header.length := List.length_map _ _
  have hform : (permuteRow σ header).map goToLower =
      List.ofFn (fun i : Fin header.length => goToLower (safeGet header (σ i))) := by
    show (List.ofFn fun i => safeGet header (σ i)).map goToLower = _
    rw [List.map_ofFn]
    rfl
  have hδ : ((permuteRow σ header).map goToLower).length = header.length := by
    rw [hform, List.length_ofFn]
  have hlow : ∀ i : Fin header.length,
      goToLower (safeGet header i) = safeGet (header.map goToLower) i.val := by
    intro i
    have h1 : (i : Nat) < (header.map goToLower).length := by rw [hkl]; exact i.isLt
    rw [safeGet_lt header _ i.isLt, safeGet_lt _ _ h1, List.get_map]
  have hkeys : ∀ j : Fin header.length,
      safeGet ((permuteRow σ header).map goToLower) j.val =
        safeGet (header.map goToLower) (σ j).val := by
    intro j
    rw [hform, safeGet_ofFn _ _ j.isLt]
    exact hlow (σ j)
  have hdist2 : ((permuteRow σ header).map goToLower).Nodup := by
    rw [hform, List.nodup_ofFn]
    intro a b hab
    have heq : safeGet (header.map goToLower) (σ a).val =
        safeGet (header.map goToLower) (σ b).val := by
      rw [← hlow (σ a), ← hlow (σ b)]
      exact hab
    have hba : (σ a).val < (header.map goToLower).length := by rw [hkl]; exact (σ a).isLt
    have hbb : (σ b).val < (header.map goToLower).length := by rw [hkl]; exact (σ b).isLt
    have hv := safeGet_inj_of_nodup _ hdist _ _ hba hbb heq
    exact σ.injective (Fin.ext hv)
  show (lastIdxOf ((permuteRow σ header).map goToLower) k).map
      (fun i => safeGet (permuteRow σ r) i) =
    (lastIdxOf (header.map goToLower) k).map (fun i => safeGet r i)
  cases hfound : lastIdxOf (header.map goToLower) k with
  | none =>
    have hnm : k ∉ header.map goToLower := (lastIdxOf_none_iff _ _).mp hfound
    have hnone : lastIdxOf ((permuteRow σ header).map goToLower) k = none := by
      rw [lastIdxOf_none_iff]
      intro hmem
      obtain ⟨j, hj⟩ := List.mem_iff_get.mp hmem
      have hjn : (j : Nat) < header.length := Nat.lt_of_lt_of_le j.isLt (le_of_eq hδ)
      have h1 : safeGet ((permuteRow σ header).map goToLower) j.val = k := by
        rw [safeGet_lt _ _ j.isLt]
        exact hj
      have h2 := hkeys ⟨j.val, hjn⟩
      rw [h1] at h2
      have hb2 : (σ ⟨j.val, hjn⟩).val < (header.map goToLower).length := by
        rw [hkl]; exact (σ _).isLt
      have h3 : (header.map goToLower).get ⟨(σ ⟨j.val, hjn⟩).val, hb2⟩ = k := by
        rw [← safeGet_lt _ _ hb2]
        exact h2.symm
      exact hnm (h3 ▸ List.get_mem _ _ _)
    rw [hnone]
    rfl
  | some i =>
    obtain ⟨hi, hget⟩ := lastIdxOf_some _ _ i hfound
    have hin : i < header.length := by rw [← hkl]; exact hi
    have hσj : (σ (σ.symm ⟨i, hin⟩)).val = i :=
      congrArg Fin.val (σ.apply_symm_apply ⟨i, hin⟩)
    have hjb : (σ.symm ⟨i, hin⟩).val < ((permuteRow σ header).map goToLower).length := by
      rw [hδ]
      exact (σ.symm ⟨i, hin⟩).isLt
    have hkeysj : safeGet ((permuteRow σ header).map goToLower) (σ.symm ⟨i, hin⟩).val = k := by
      rw [hkeys (σ.symm ⟨i, hin⟩), hσj]
      exact hget
    rw [lastIdxOf_of_safeGet _ hdist2 _ hjb k hkeysj]
    show some (safeGet (permuteRow σ r) (σ.symm ⟨i, hin⟩).val) = some (safeGet r i)
    have hval : safeGet (permuteRow σ r) (σ.symm ⟨i, hin⟩).val = safeGet r i := by
      show safeGet (List.ofFn fun i2 => safeGet r (σ i2)) (σ.symm ⟨i, hin⟩).val = _
      rw [safeGet_ofFn _ _ (σ.symm ⟨i, hin⟩).isLt]
      show safeGet r (σ (σ.symm ⟨i, hin⟩)).val = safeGet r i
      rw [hσj]
    rw [hval]

/-- Unfolding of the record loop on a successfully read row. -/
theorem readLoop_ok_cons (fp : String) (header record : List String) (rest : List ReadRow) :
    readLoop fp header (.ok record :: rest) =
      if record.length < header.length then readLoop fp header rest
      else
        match readLoop fp header rest with
        | (_, _, some e) => ([], 0, some e)
        | (docs, cnt, none) => (mkDoc header record :: docs, cnt + 1, none) := rfl

/-- The record loop is invariant under a simultaneous column
permutation of the header and all rows. -/
theorem readLoop_permute (fp : String) (header : List String)
    (σ : Equiv.Perm (Fin header.length)) (hdist : (header.map goToLower).Nodup) :
    ∀ rows : List (List String), (∀ r ∈ rows, header.length ≤ r.length) →
    readLoop fp (permuteRow σ header) (rows.map (fun r => .ok (permuteRow σ r))) =
      readLoop fp header (rows.map (fun r => Except.ok r)) := by
  intro rows
  induction rows with
  | nil => intro _; rfl
  | cons r rs ih =>
    intro hlen
    have hr : header.length ≤ r.length := hlen r (List.mem_cons_self _ _)
    have hrs : ∀ x ∈ rs, header.length ≤ x.length :=
      fun x hx => hlen x (List.mem_cons_of_mem _ hx)
    rw [List.map_cons, List.map_cons, readLoop_ok_cons, readLoop_ok_cons]
    have hlp : ¬(permuteRow σ r).length < (permuteRow σ header).length := by
      show ¬(List.ofFn _).length < (List.ofFn _).length
      rw [List.length_ofFn, List.length_ofFn]
      exact Nat.lt_irrefl _
    have hlo : ¬r.length < header.length := Nat.not_lt.mpr hr
    rw [if_neg hlp, if_neg hlo, ih hrs]
    rcases hrl : readLoop fp header (rs.map (fun r => Except.ok r)) with ⟨docs, cnt, err⟩
    cases err with
    | some e => rfl
    | none => rw [mkDoc_permute header σ hdist r]

/-- C7 (amended): for every CSV content whose lowercased header names
are pairwise distinct and whose data rows are at least as long as the
header, simultaneously permuting the columns of the header and of
every data row leaves the parsed raw records (and count and error)
unchanged.  Without the distinctness proviso the claim fails, because
the column-index map keeps only the last occurrence of a repeated
lowercased header name (see the counterexample). -/
theorem parse_column_order_invariance (fp : String) (header : List String)
    (rows : List (List String)) (σ : Equiv.Perm (Fin header.length))
    (hdist : (header.map goToLower).Nodup)
    (hlen : ∀ r ∈ rows, header.length ≤ r.length) :
    parseRows fp (.ok (permuteRow σ header) :: rows.map (fun r => .ok (permuteRow σ r))) =
      parseRows fp (.ok header :: rows.map (fun r => Except.ok r)) :=
  readLoop_permute fp header σ hdist rows hlen

/-- Closed instance of `parse_column_order_invariance`: swapping the
two (distinct-name) columns of a one-row file leaves the parse result
unchanged. -/
theorem parse_column_order_invariance_witness :
    parseRows "f.csv"
        (.ok (permuteRow colSwap ["a", "b"]) ::
          [["x", "y"]].map (fun r => .ok (permuteRow colSwap r))) =
      parseRows "f.csv" (.ok ["a", "b"] :: [["x", "y"]].map (fun r => Except.ok r)) :=
  parse_column_order_invariance "f.csv" ["a", "b"] [["x", "y"]]
    colSwap (by decide) (by decide)

/-- C7 (counterexample): the claim quantifies over every CSV content,
but with the repeated header name `a` the parser's last-occurrence
column map makes the swapped content parse differently: the record
value at key `a` is the second column's cell, which the swap changes. -/
theorem parse_column_order_counterexample :
    parseRows "f.csv"
        [.ok (permuteRow (Equiv.swap (0 : Fin 2) 1) ["a", "a"]),
         .ok (permuteRow (Equiv.swap (0 : Fin 2) 1) ["x", "y"])] ≠
      parseRows "f.csv" [.ok ["a", "a"], .ok ["x", "y"]] := by
  intro h
  have h2 := congrArg (fun t => t.1.map (fun r => r "a")) h
  exact absurd h2 (by decide)

end Babylon
